import Mathlib

/-!
Verification of the changelog core of `fetch_and_translate.py`
(repository `chan15/ai-tui-doc-maker`).

Strings are modelled as `List Char`; the Python string primitives used by
the program (`startswith`, `find`, `split`, `strip`, `join`,
`splitlines(keepends=True)`, list slicing) are embedded as executable
functions below, and the changelog functions `parse_changelog`,
`build_changelog`, `build_diff_markdown` and the trim step of `main`
are translated from the source on top of them.
-/

namespace AiTuiDocMaker

/-- Characters removed by Python `str.strip()` with no argument. -/
def pyIsSpace (c : Char) : Bool :=
  c == ' ' || c == '\t' || c == '\n' || c == '\r' || c == '\x0b' || c == '\x0c'

/-- Python `str.strip()`: remove leading and trailing whitespace. -/
def pyStrip (s : List Char) : List Char :=
  ((s.dropWhile pyIsSpace).reverse.dropWhile pyIsSpace).reverse

/-- Python `str.find`: index of the first occurrence of `needle` in the
string, or `none` where Python returns `-1`. -/
def pyFind (needle : List Char) : List Char → Option Nat
  | [] => if needle.isEmpty then some 0 else none
  | c :: rest =>
    if needle.isPrefixOf (c :: rest) then some 0
    else (pyFind needle rest).map (· + 1)

/-- Python `str.split` on a nonempty separator, scanning left to right and
consuming non-overlapping matches.  The `Nat` argument counts separator
characters still to be skipped after a match. -/
def pySplitAux (sep : List Char) : Nat → List Char → List (List Char)
  | _, [] => [[]]
  | k + 1, _ :: rest => pySplitAux sep k rest
  | 0, c :: rest =>
    if sep.isPrefixOf (c :: rest) then
      [] :: pySplitAux sep (sep.length - 1) rest
    else
      match pySplitAux sep 0 rest with
      | [] => [[c]]
      | chunk :: chunks => (c :: chunk) :: chunks

/-- Python `str.split` on a nonempty separator. -/
def pySplit (sep s : List Char) : List (List Char) :=
  pySplitAux sep 0 s

/-- Python `str.splitlines(keepends=True)`, for the line boundaries
`'\n'`, `'\r'` and `"\r\n"`. -/
def pySplitlines : List Char → List (List Char)
  | [] => []
  | '\r' :: '\n' :: rest => ['\r', '\n'] :: pySplitlines rest
  | c :: rest =>
    if c = '\n' then ['\n'] :: pySplitlines rest
    else if c = '\r' then ['\r'] :: pySplitlines rest
    else
      match pySplitlines rest with
      | [] => [[c]]
      | l :: ls => (c :: l) :: ls

/-- Python `sep.join(entries)`. -/
def sepJoin (sep : List Char) : List (List Char) → List Char
  | [] => []
  | [e] => e
  | e :: es => e ++ sep ++ sepJoin sep es

/-- The `CHANGELOG_HEADER` constant of `fetch_and_translate.py`. -/
def CHANGELOG_HEADER : List Char :=
  ("###### tags: `ai` `gemini` `copilot`\n\n# Gemini CLI & GitHub Copilot CLI 指令更新 Changelog\n\n").toList

/-- The `ENTRY_SEPARATOR` constant `"\n---\n\n"` of
`fetch_and_translate.py`, as an explicit character list. -/
def ENTRY_SEPARATOR : List Char := ['\n', '-', '-', '-', '\n', '\n']

/-- The literal `"###### tags"` tested by `content.startswith` in
`parse_changelog`, as an explicit character list. -/
def tagsMarker : List Char :=
  ['#', '#', '#', '#', '#', '#', ' ', 't', 'a', 'g', 's']

/-- The literal `"\n## "` searched for by `content.find` in
`parse_changelog`, as an explicit character list. -/
def entryStartMarker : List Char := ['\n', '#', '#', ' ']

/-- The literal `"## "` of the chunk filter of `parse_changelog`, as an
explicit character list. -/
def entryLead : List Char := ['#', '#', ' ']

/-- The chunk filter of `parse_changelog`:
`e.strip().startswith("## ")`. -/
def keepEntry (e : List Char) : Bool :=
  entryLead.isPrefixOf (pyStrip e)

/-- `parse_changelog` from `fetch_and_translate.py` (lines 52-71). -/
def parse_changelog (content : List Char) : List Char × List (List Char) :=
  if tagsMarker.isPrefixOf content then
    match pyFind entryStartMarker content with
    | none => (content, [])
    | some idx =>
      (content.take (idx + 1),
        (pySplit ENTRY_SEPARATOR (content.drop (idx + 1))).filter keepEntry)
  else
    (CHANGELOG_HEADER, (pySplit ENTRY_SEPARATOR content).filter keepEntry)

/-- `build_changelog` from `fetch_and_translate.py` (lines 74-78). -/
def build_changelog (header : List Char) (entries : List (List Char)) : List Char :=
  if entries.isEmpty then header
  else header ++ sepJoin ENTRY_SEPARATOR entries ++ ENTRY_SEPARATOR

/-- The body whose separator-chunks `parse_changelog` filters: empty in
the early-return branch where the whole content is the header. -/
def parse_body (content : List Char) : List Char :=
  if tagsMarker.isPrefixOf content then
    match pyFind entryStartMarker content with
    | none => []
    | some idx => content.drop (idx + 1)
  else content

/-- The changelog update step of `main` (lines 238-240): prepend the new
entry, then truncate to the configured maximum when it is positive. -/
def update_entries (maxEntries : Int) (newEntry : List Char)
    (entries : List (List Char)) : List (List Char) :=
  if 0 < maxEntries then (newEntry :: entries).take maxEntries.toNat
  else newEntry :: entries

/-- Modelled from the spec: the external `difflib.unified_diff`
collaborator (Python standard library, not part of this repository).
Per the specification (§4.1) the produced diff is empty exactly when no
lines differ, and otherwise is a nonempty sequence of labeled lines
beginning with the two fixed file labels. -/
def unified_diff (a b : List (List Char)) : List (List Char) :=
  if a = b then []
  else ("--- 上一版").toList :: ("+++ 本次").toList ::
    (a.map (fun l => '-' :: l) ++ b.map (fun l => '+' :: l))

/-- `build_diff_markdown` from `fetch_and_translate.py` (lines 99-110). -/
def build_diff_markdown (old new title : List Char) : List Char :=
  let old_lines := pySplitlines old
  let new_lines := pySplitlines new
  let diff := unified_diff old_lines new_lines
  if diff.isEmpty then []
  else
    ("### ").toList ++ title ++ ("\n\n```diff\n").toList ++ diff.flatten ++
      ("\n```\n").toList

/-- Claim C7: parsing the empty string yields the default header constant
and an empty entries list. -/
theorem parse_changelog_empty_input :
    parse_changelog [] = (CHANGELOG_HEADER, []) := by decide

/-- Claim C4: `build_changelog` returns the header unchanged on an empty
entries list, and otherwise the header, the separator-joined entries and
one trailing separator. -/
theorem build_changelog_shape (header : List Char) (entries : List (List Char)) :
    (entries = [] → build_changelog header entries = header) ∧
    (entries ≠ [] → build_changelog header entries =
      header ++ sepJoin ENTRY_SEPARATOR entries ++ ENTRY_SEPARATOR) := by
  constructor
  · intro h
    subst h
    rfl
  · intro h
    cases entries with
    | nil => exact absurd rfl h
    | cons e es => rfl

/-- Witness for claim C4 at a concrete header and entry list. -/
theorem build_changelog_shape_witness :
    build_changelog ("h\n").toList [("## e").toList] =
      ("h\n").toList ++ sepJoin ENTRY_SEPARATOR [("## e").toList] ++
        ENTRY_SEPARATOR :=
  (build_changelog_shape ("h\n").toList [("## e").toList]).2 (by decide)

/-- Claim C2: with a positive maximum `N`, the update step takes the first
`N` elements of the prepended list; with exactly `N` existing entries the
result has length `N`, starts with the new entry and drops the old last
entry; with `N - 1` existing entries nothing is dropped; with `N = 1` the
result is the singleton new entry. -/
theorem update_entries_trim (N : Int) (e : List Char) (E : List (List Char))
    (hN : 0 < N) :
    update_entries N e E = (e :: E).take N.toNat ∧
    (E.length = N.toNat → (update_entries N e E).length = N.toNat ∧
      update_entries N e E = e :: E.take (N.toNat - 1)) ∧
    (E.length = N.toNat - 1 → update_entries N e E = e :: E) ∧
    (N = 1 → update_entries N e E = [e]) := by
  have hbase : update_entries N e E = (e :: E).take N.toNat := by
    simp [update_entries, hN]
  have hpos : 1 ≤ N.toNat := by omega
  refine ⟨hbase, ?_, ?_, ?_⟩
  · intro hlen
    constructor
    · rw [hbase]
      simp [List.length_take]
      omega
    · rw [hbase]
      obtain ⟨k, hk⟩ : ∃ k, N.toNat = k + 1 := ⟨N.toNat - 1, by omega⟩
      rw [hk]
      simp
  · intro hlen
    rw [hbase]
    apply List.take_of_length_le
    simp
    omega
  · intro h1
    subst h1
    rw [hbase]
    rfl

/-- Witness for claim C2 at max 2, one new entry and two existing ones. -/
theorem update_entries_trim_witness :
    update_entries 2 ("## n").toList [("## a").toList, ("## b").toList] =
      [("## n").toList, ("## a").toList] := by
  have h := update_entries_trim 2 ("## n").toList
    [("## a").toList, ("## b").toList] (by decide)
  rw [h.1]
  decide

/-- Claim C6: after the update step the entries list has at most the
configured maximum number of elements when that maximum is positive, and a
non-positive maximum disables trimming so every entry is kept. -/
theorem update_entries_bounded (N : Int) (e : List Char)
    (E : List (List Char)) :
    (0 < N → (update_entries N e E).length ≤ N.toNat) ∧
    (N ≤ 0 → update_entries N e E = e :: E) := by
  constructor
  · intro h
    simp [update_entries, h, List.length_take]
  · intro h
    simp [update_entries, show ¬ (0:Int) < N by omega]

/-- Witness for claim C6 at max 1 and one existing entry. -/
theorem update_entries_bounded_witness :
    (update_entries 1 ("## n").toList [("## a").toList]).length ≤
      Int.toNat 1 :=
  (update_entries_bounded 1 ("## n").toList [("## a").toList]).1 (by decide)

/-- Claim C3: the header/body split of `parse_changelog` — with the tag
marker present and the entry-start marker first at `i`, the header is the
first `i + 1` characters and the entries come from the rest; with the
marker absent the whole content is the header; without the tag marker the
header is the default constant and the whole content is the body. -/
theorem parse_changelog_header_split (content : List Char) :
    (tagsMarker.isPrefixOf content = true →
      (∀ i, pyFind entryStartMarker content = some i →
        parse_changelog content =
          (content.take (i + 1),
            (pySplit ENTRY_SEPARATOR (content.drop (i + 1))).filter keepEntry)) ∧
      (pyFind entryStartMarker content = none →
        parse_changelog content = (content, []))) ∧
    (tagsMarker.isPrefixOf content = false →
      parse_changelog content =
        (CHANGELOG_HEADER, (pySplit ENTRY_SEPARATOR content).filter keepEntry)) := by
  refine ⟨fun h => ⟨fun i hi => ?_, fun hi => ?_⟩, fun h => ?_⟩
  · simp [parse_changelog, h, hi]
  · simp [parse_changelog, h, hi]
  · simp [parse_changelog, h]

/-- Witness for claim C3: content without the tag marker. -/
theorem parse_changelog_header_split_witness :
    parse_changelog ("x").toList =
      (CHANGELOG_HEADER,
        (pySplit ENTRY_SEPARATOR ("x").toList).filter keepEntry) :=
  (parse_changelog_header_split ("x").toList).2 (by decide)

/-- Claim C5: the entries returned by `parse_changelog` are exactly the
chunks of the body split on the entry separator that, after stripping
surrounding whitespace, begin with `"## "`, kept verbatim and in order;
every other chunk is discarded. -/
theorem parse_changelog_lenient (content : List Char) :
    (parse_changelog content).2 =
      (pySplit ENTRY_SEPARATOR (parse_body content)).filter keepEntry := by
  by_cases h : tagsMarker.isPrefixOf content
  · cases hf : pyFind entryStartMarker content with
    | none => simp [parse_changelog, parse_body, h, hf]; decide
    | some i => simp [parse_changelog, parse_body, h, hf]
  · simp only [parse_changelog, parse_body, h]
    simp

theorem pySplitlines_flatten (s : List Char) : (pySplitlines s).flatten = s := by
  induction s using pySplitlines.induct with
  | case1 => rfl
  | case2 rest ih => simp [pySplitlines, ih]
  | case3 rest h ih => simp [pySplitlines, ih]
  | case4 rest h h2 ih => simp [pySplitlines, h, ih]
  | case5 c rest h h1 h2 hm ih =>
    have hrest : rest = [] := by simpa [hm] using ih.symm
    subst hrest
    simp [pySplitlines, h1, h2]
  | case6 c rest h h1 h2 l ls hm ih =>
    have hstep : pySplitlines (c :: rest) = (c :: l) :: ls := by
      simp [pySplitlines, h, h1, h2, hm]
    rw [hm] at ih
    rw [hstep]
    simpa using ih

theorem pySplitlines_inj {a b : List Char}
    (h : pySplitlines a = pySplitlines b) : a = b := by
  rw [← pySplitlines_flatten a, ← pySplitlines_flatten b, h]

theorem build_diff_eq_nil_iff (old new title : List Char) :
    build_diff_markdown old new title = [] ↔ old = new := by
  constructor
  · intro h
    by_contra hne
    have hl : pySplitlines old ≠ pySplitlines new :=
      fun he => hne (pySplitlines_inj he)
    simp [build_diff_markdown, unified_diff, hl] at h
  · intro h
    subst h
    simp [build_diff_markdown, unified_diff]

/-- Claim C8: the diff formatter returns the empty string whenever the old
and new contents coincide, for every title. -/
theorem build_diff_markdown_self (x title : List Char) :
    build_diff_markdown x x title = [] :=
  (build_diff_eq_nil_iff x x title).mpr rfl

/-- Claim C9: the empty-string sentinel is returned exactly when the old
and new contents coincide, and on any genuine change the result is
nonempty and begins with the line `"### "` followed by the title. -/
theorem build_diff_markdown_change (old new title : List Char) :
    (build_diff_markdown old new title = [] ↔ old = new) ∧
    (old ≠ new →
      (("### ").toList ++ title ++ ['\n']) <+:
        build_diff_markdown old new title) := by
  refine ⟨build_diff_eq_nil_iff old new title, fun hne => ?_⟩
  have hl : pySplitlines old ≠ pySplitlines new :=
    fun he => hne (pySplitlines_inj he)
  have hshape : build_diff_markdown old new title =
      (("### ").toList ++ title ++ ['\n']) ++
        ('\n' :: (("```diff\n").toList ++
          (unified_diff (pySplitlines old) (pySplitlines new)).flatten ++
          ("\n```\n").toList)) := by
    simp [build_diff_markdown, unified_diff, hl]
  exact ⟨_, hshape.symm⟩

/-- Witness for claim C9 at a concrete changed pair of contents. -/
theorem build_diff_markdown_change_witness :
    (("### ").toList ++ ("T").toList ++ ['\n']) <+:
      build_diff_markdown ("a\n").toList ("b\n").toList ("T").toList :=
  (build_diff_markdown_change ("a\n").toList ("b\n").toList
    ("T").toList).2 (by decide)

theorem pyFind_eq_none_iff (needle s : List Char) :
    pyFind needle s = none ↔ ∀ p, ¬ needle <+: s.drop p := by
  induction s with
  | nil =>
    rw [pyFind]
    constructor
    · intro h p hpre
      rw [List.drop_nil] at hpre
      rw [ List.prefix_nil.mp hpre] at h
      simp at h
    · intro h
      have : needle ≠ [] := fun hn => h 0 (by simp [hn])
      simp [List.isEmpty_iff, this]
  | cons c rest ih =>
    rw [pyFind]
    by_cases hp : needle.isPrefixOf (c :: rest)
    · simp only [hp, if_true]
      constructor
      · intro h
        exact absurd h (by simp)
      · intro h
        exact absurd ( List.isPrefixOf_iff_prefix.mp hp) (by simpa using h 0)
    · rw [if_neg hp, Option.map_eq_none']
      rw [ih]
      constructor
      · intro h p
        cases p with
        | zero =>
          simpa using fun hpre => hp ( List.isPrefixOf_iff_prefix.mpr hpre)
        | succ p => simpa using h p
      · intro h p
        simpa using h (p + 1)

theorem pyFind_eq_some_iff (needle s : List Char) (i : Nat) :
    pyFind needle s = some i ↔
      needle <+: s.drop i ∧ ∀ j, j < i → ¬ needle <+: s.drop j := by
  induction s generalizing i with
  | nil =>
    rw [pyFind]
    by_cases hn : needle.isEmpty
    · have hnil : needle = [] := by simpa [List.isEmpty_iff] using hn
      subst hnil
      simp only [hn, if_true]
      constructor
      · intro h
        obtain rfl : i = 0 := by simpa using h.symm
        simp
      · rintro ⟨-, h2⟩
        rcases Nat.eq_zero_or_pos i with rfl | hi
        · rfl
        · exact absurd (by simp) (h2 0 hi)
    · have hnil : needle ≠ [] := by simpa [List.isEmpty_iff] using hn
      simp only [hn, if_false]
      constructor
      · intro h
        exact absurd h (by simp)
      · rintro ⟨h1, -⟩
        rw [List.drop_nil] at h1
        exact absurd ( List.prefix_nil.mp h1) hnil
  | cons c rest ih =>
    rw [pyFind]
    by_cases hp : needle.isPrefixOf (c :: rest)
    · simp only [hp, if_true]
      constructor
      · intro h
        obtain rfl : i = 0 := by simpa using h.symm
        exact ⟨by simpa using List.isPrefixOf_iff_prefix.mp hp, by omega⟩
      · rintro ⟨-, h2⟩
        rcases Nat.eq_zero_or_pos i with rfl | hi
        · rfl
        · exact absurd (by simpa using List.isPrefixOf_iff_prefix.mp hp) (h2 0 hi)
    · simp only [hp, if_false]
      constructor
      · intro h
        obtain ⟨i', hi', rfl⟩ := Option.map_eq_some'.mp h
        obtain ⟨h1, h2⟩ := (ih i').mp hi'
        refine ⟨by simpa using h1, ?_⟩
        intro j hj
        cases j with
        | zero =>
          simpa using fun hpre => hp ( List.isPrefixOf_iff_prefix.mpr hpre)
        | succ j =>
          simpa using h2 j (by omega)
      · rintro ⟨h1, h2⟩
        cases i with
        | zero =>
          exact absurd ( List.isPrefixOf_iff_prefix.mpr (by simpa using h1)) hp
        | succ i' =>
          have hr : pyFind needle rest = some i' := by
            refine (ih i').mpr ⟨by simpa using h1, ?_⟩
            intro j hj
            simpa using h2 (j + 1) (by omega)
          simp [hr]

theorem pre_of_append_le {p x y : List Char} (h : p.length ≤ x.length)
    (hp : p <+: x ++ y) : p <+: x := by
  obtain ⟨t, ht⟩ := hp
  have hx : p = x.take p.length := by
    have h2 := congrArg (List.take p.length) ht
    rwa [List.take_append_eq_append_take, List.take_length,
      Nat.sub_self, List.take_zero, List.append_nil,
      List.take_append_eq_append_take, Nat.sub_eq_zero_of_le h,
      List.take_zero, List.append_nil] at h2
  refine ⟨x.drop p.length, ?_⟩
  nth_rewrite 1 [hx]
  exact List.take_append_drop p.length x

theorem needle_split {needle x y : List Char} (h : needle <+: x ++ y)
    (hx : x.length ≤ needle.length) :
    x <+: needle ∧ needle.drop x.length <+: y := by
  obtain ⟨t, ht⟩ := h
  constructor
  · have h2 := congrArg (List.take x.length) ht
    rw [List.take_append_eq_append_take, Nat.sub_eq_zero_of_le hx,
      List.take_zero, List.append_nil, List.take_append_eq_append_take,
      List.take_length, Nat.sub_self, List.take_zero, List.append_nil] at h2
    refine ⟨needle.drop x.length, ?_⟩
    nth_rewrite 1 [← h2]
    exact List.take_append_drop x.length needle
  · have h2 := congrArg (List.drop x.length) ht
    rw [List.drop_append_eq_append_drop, Nat.sub_eq_zero_of_le hx,
      List.drop_zero, List.drop_append_eq_append_drop, List.drop_length,
      Nat.sub_self, List.drop_zero, List.nil_append] at h2
    exact ⟨t, h2⟩

theorem pySplitAux_skip (sep l rest : List Char) :
    pySplitAux sep l.length (l ++ rest) = pySplitAux sep 0 rest := by
  induction l with
  | nil => rfl
  | cons c l ih => simpa [pySplitAux] using ih

theorem pySplit_cons_of (sep : List Char) (hs : sep ≠ []) (e rest : List Char)
    (hgood : ∀ p, p < e.length → ¬ sep <+: (e ++ sep).drop p) :
    pySplit sep (e ++ (sep ++ rest)) = e :: pySplit sep rest := by
  induction e with
  | nil =>
    obtain ⟨s0, sep', rfl⟩ : ∃ s0 sep', sep = s0 :: sep' := by
      cases sep with
      | nil => exact absurd rfl hs
      | cons a b => exact ⟨a, b, rfl⟩
    show pySplitAux (s0 :: sep') 0 (s0 :: (sep' ++ rest)) = _
    rw [pySplitAux]
    have hp : (s0 :: sep').isPrefixOf (s0 :: (sep' ++ rest)) = true := by
      apply List.isPrefixOf_iff_prefix.mpr
      exact ⟨rest, by simp⟩
    rw [if_pos hp]
    have hlen : (s0 :: sep').length - 1 = sep'.length := by simp
    rw [hlen, pySplitAux_skip]
    rfl
  | cons c e ih =>
    have h0 : ¬ sep.isPrefixOf (c :: (e ++ (sep ++ rest))) := by
      intro hp
      apply hgood 0 (by simp)
      have hpre := List.isPrefixOf_iff_prefix.mp hp
      rw [List.drop_zero]
      refine pre_of_append_le ?_ (by simpa [List.append_assoc] using hpre)
      simp
      omega
    show pySplitAux sep 0 (c :: (e ++ (sep ++ rest))) = _
    rw [pySplitAux, if_neg h0]
    have ih2 : pySplitAux sep 0 (e ++ (sep ++ rest)) = e :: pySplit sep rest := by
      apply ih
      intro p hp hpre
      apply hgood (p + 1) (by simpa using Nat.succ_lt_succ hp)
      simpa using hpre
    rw [ih2]

theorem ENTRY_SEPARATOR_spelling : ENTRY_SEPARATOR = ("\n---\n\n").toList := rfl

theorem tagsMarker_spelling : tagsMarker = ("###### tags").toList := rfl

theorem entryStartMarker_spelling : entryStartMarker = ("\n## ").toList := rfl

theorem entryLead_spelling : entryLead = ("## ").toList := rfl

theorem good_of_entry (e : List Char)
    (hfind : pyFind ENTRY_SEPARATOR e = none)
    (hsuf : ¬ ['\n', '-', '-', '-', '\n'] <:+ e) :
    ∀ p, p < e.length → ¬ ENTRY_SEPARATOR <+: (e ++ ENTRY_SEPARATOR).drop p := by
  intro p hp hpre
  have h6 : ENTRY_SEPARATOR.length = 6 := rfl
  have hdrop : (e ++ ENTRY_SEPARATOR).drop p = e.drop p ++ ENTRY_SEPARATOR := by
    rw [List.drop_append_eq_append_drop, Nat.sub_eq_zero_of_le (Nat.le_of_lt hp),
      List.drop_zero]
  rw [hdrop] at hpre
  have hlen : (e.drop p).length = e.length - p := by simp
  by_cases hL6 : 6 ≤ e.length - p
  · have hin : ENTRY_SEPARATOR <+: e.drop p := by
      refine pre_of_append_le ?_ hpre
      omega
    exact (pyFind_eq_none_iff _ _).mp hfind p hin
  · obtain ⟨hx1, hx2⟩ := needle_split hpre (by omega)
    rw [hlen] at hx2
    have hge1 : 1 ≤ e.length - p := by omega
    have hle5 : e.length - p ≤ 5 := by omega
    have htk := List.prefix_iff_eq_take.mp hx1
    rw [hlen] at htk
    set L := e.length - p with hLdef
    interval_cases L
    · exact absurd hx2 (by decide)
    · exact absurd hx2 (by decide)
    · exact absurd hx2 (by decide)
    · exact absurd hx2 (by decide)
    · apply hsuf
      have he5 : e.drop p = ['\n', '-', '-', '-', '\n'] := by
        rw [htk]
        decide
      rw [← he5]
      exact List.drop_suffix p e

theorem pySplit_join_sep (E : List (List Char)) (hne : E ≠ [])
    (hgood : ∀ e ∈ E, ∀ p, p < e.length →
      ¬ ENTRY_SEPARATOR <+: (e ++ ENTRY_SEPARATOR).drop p) :
    pySplit ENTRY_SEPARATOR (sepJoin ENTRY_SEPARATOR E ++ ENTRY_SEPARATOR) =
      E ++ [[]] := by
  induction E with
  | nil => exact absurd rfl hne
  | cons e E ih =>
    cases E with
    | nil =>
      have h := pySplit_cons_of ENTRY_SEPARATOR (by decide) e []
        (hgood e (List.mem_cons_self e []))
      simp only [List.append_nil] at h
      have h2 : pySplit ENTRY_SEPARATOR [] = [[]] := rfl
      rw [h2] at h
      simpa [sepJoin] using h
    | cons e2 E2 =>
      have hjoin : sepJoin ENTRY_SEPARATOR (e :: e2 :: E2) =
          e ++ ENTRY_SEPARATOR ++ sepJoin ENTRY_SEPARATOR (e2 :: E2) := rfl
      rw [hjoin, List.append_assoc, List.append_assoc]
      rw [pySplit_cons_of ENTRY_SEPARATOR (by decide) e _
        (hgood e (List.mem_cons_self e _))]
      rw [ih (by simp) (fun x hx => hgood x (List.mem_cons_of_mem e hx))]
      rfl

theorem filter_keep_entries (E : List (List Char))
    (h : ∀ e ∈ E, keepEntry e = true) :
    (E ++ [[]]).filter keepEntry = E := by
  rw [List.filter_append, List.filter_eq_self.mpr h]
  have h2 : List.filter keepEntry [[]] = [] := by decide
  rw [h2, List.append_nil]

theorem parse_build_aux (H : List Char) (E : List (List Char))
    (hH1 : tagsMarker <+: H)
    (hH2 : pyFind entryStartMarker H = none)
    (hH3 : ['\n'] <:+ H)
    (hE : ∀ e ∈ E, entryLead <+: e ∧ keepEntry e = true ∧
      pyFind ENTRY_SEPARATOR e = none ∧ ¬ ['\n', '-', '-', '-', '\n'] <:+ e) :
    parse_changelog (build_changelog H E) = (H, E) := by
  have hpreB : tagsMarker.isPrefixOf H = true := List.isPrefixOf_iff_prefix.mpr hH1
  cases E with
  | nil =>
    show parse_changelog H = (H, [])
    simp [parse_changelog, hpreB, hH2]
  | cons e0 E' =>
    obtain ⟨H', rfl⟩ := hH3
    have hb : build_changelog (H' ++ ['\n']) (e0 :: E') =
        (H' ++ ['\n']) ++
          (sepJoin ENTRY_SEPARATOR (e0 :: E') ++ ENTRY_SEPARATOR) := by
      rw [build_changelog, if_neg (by simp), List.append_assoc]
    rw [hb]
    set tail := sepJoin ENTRY_SEPARATOR (e0 :: E') ++ ENTRY_SEPARATOR with htaildef
    obtain ⟨t0, ht0⟩ : ∃ t0, tail = e0 ++ t0 := by
      cases E' with
      | nil => exact ⟨ENTRY_SEPARATOR, by rw [htaildef]; rfl⟩
      | cons a b =>
        refine ⟨ENTRY_SEPARATOR ++
          (sepJoin ENTRY_SEPARATOR (a :: b) ++ ENTRY_SEPARATOR), ?_⟩
        rw [htaildef]
        have hj : sepJoin ENTRY_SEPARATOR (e0 :: a :: b) =
            e0 ++ ENTRY_SEPARATOR ++ sepJoin ENTRY_SEPARATOR (a :: b) := rfl
        rw [hj]
        simp [List.append_assoc]
    obtain ⟨e0r, he0r⟩ := (hE e0 (List.mem_cons_self _ _)).1
    have hC_drop : ((H' ++ ['\n']) ++ tail).drop H'.length = '\n' :: tail := by
      rw [List.append_assoc, List.drop_left]
      rfl
    have hfind : pyFind entryStartMarker ((H' ++ ['\n']) ++ tail) =
        some H'.length := by
      apply (pyFind_eq_some_iff _ _ _).mpr
      constructor
      · rw [hC_drop, ht0, ← he0r]
        refine ⟨e0r ++ t0, ?_⟩
        have hm : entryStartMarker = '\n' :: entryLead := rfl
        rw [hm]
        simp [List.append_assoc]
      · intro j hj hpre
        have hdropj : ((H' ++ ['\n']) ++ tail).drop j =
            (H' ++ ['\n']).drop j ++ tail := by
          rw [List.drop_append_eq_append_drop,
            Nat.sub_eq_zero_of_le (by simp; omega), List.drop_zero]
        rw [hdropj] at hpre
        have hlenj : ((H' ++ ['\n']).drop j).length = H'.length + 1 - j := by
          simp
        have h4' : entryStartMarker.length = 4 := rfl
        by_cases h4 : 4 ≤ H'.length + 1 - j
        · have hin : entryStartMarker <+: (H' ++ ['\n']).drop j := by
            refine pre_of_append_le ?_ hpre
            omega
          exact (pyFind_eq_none_iff _ _).mp hH2 j hin
        · obtain ⟨-, hx2⟩ := needle_split hpre (by omega)
          rw [hlenj, ht0, ← he0r] at hx2
          have hL2 : 2 ≤ H'.length + 1 - j := by omega
          have hL3 : H'.length + 1 - j ≤ 3 := by omega
          have hlead : entryLead ++ e0r ++ t0 =
              '#' :: '#' :: ' ' :: (e0r ++ t0) := by
            rw [show entryLead = ['#', '#', ' '] from rfl]
            simp
          rw [hlead] at hx2
          set L := H'.length + 1 - j with hLdef
          interval_cases L
          · rw [show entryStartMarker.drop 2 = ['#', ' '] from rfl] at hx2
            simp at hx2
          · rw [show entryStartMarker.drop 3 = [' '] from rfl] at hx2
            simp at hx2
    have hpreC : tagsMarker.isPrefixOf ((H' ++ ['\n']) ++ tail) = true := by
      apply List.isPrefixOf_iff_prefix.mpr
      obtain ⟨tH, htH⟩ := hH1
      exact ⟨tH ++ tail, by rw [← List.append_assoc, htH]⟩
    have htake : ((H' ++ ['\n']) ++ tail).take (H'.length + 1) =
        H' ++ ['\n'] := by
      have hl : (H' ++ ['\n']).length = H'.length + 1 := by simp
      rw [← hl, List.take_left]
    have hdropS : ((H' ++ ['\n']) ++ tail).drop (H'.length + 1) = tail := by
      have hl : (H' ++ ['\n']).length = H'.length + 1 := by simp
      rw [← hl, List.drop_left]
    have hsplit : pySplit ENTRY_SEPARATOR tail = (e0 :: E') ++ [[]] := by
      rw [htaildef]
      exact pySplit_join_sep (e0 :: E') (by simp)
        (fun e he => good_of_entry e ((hE e he).2.2.1) ((hE e he).2.2.2))
    simp only [parse_changelog, hpreC, hfind, if_true]
    rw [htake, hdropS, hsplit,
      filter_keep_entries _ (fun e he => (hE e he).2.1)]

/-- Claim C1 counterexample: with the empty header and the single
well-formed entry `"## a"` (it starts with `"## "` and contains no entry
separator), rebuilding and parsing does not return the pair back — the
parser substitutes the default header for any header that does not start
with `"###### tags"`. -/
theorem parse_build_roundtrip_counterexample :
    parse_changelog (build_changelog [] [("## a").toList]) ≠
      ([], [("## a").toList]) := by decide

/-- Claim C1 (amended): for a header that starts with `"###### tags"`,
contains no occurrence of `"\n## "` and ends with a newline, and entries
that each start with `"## "`, still start with `"## "` after stripping,
contain no occurrence of the entry separator and do not end with
`"\n---\n"`, parsing the built document returns the header and entries
exactly. -/
theorem parse_build_changelog_roundtrip (H : List Char) (E : List (List Char))
    (hH1 : tagsMarker <+: H)
    (hH2 : pyFind entryStartMarker H = none)
    (hH3 : ['\n'] <:+ H)
    (hE : ∀ e ∈ E, entryLead <+: e ∧ keepEntry e = true ∧
      pyFind ENTRY_SEPARATOR e = none ∧ ¬ ['\n', '-', '-', '-', '\n'] <:+ e) :
    parse_changelog (build_changelog H E) = (H, E) :=
  parse_build_aux H E hH1 hH2 hH3 hE

/-- Witness for claim C1 at the default header and one concrete entry. -/
theorem parse_build_changelog_roundtrip_witness :
    parse_changelog (build_changelog CHANGELOG_HEADER [("## a").toList]) =
      (CHANGELOG_HEADER, [("## a").toList]) :=
  parse_build_changelog_roundtrip CHANGELOG_HEADER [("## a").toList]
    (by decide) (by decide) (by decide) (by decide)

theorem pySplitAux_ne_nil (sep : List Char) (k : Nat) (s : List Char) :
    pySplitAux sep k s ≠ [] := by
  induction s generalizing k with
  | nil => simp [pySplitAux]
  | cons a rest ih =>
    cases k with
    | succ k' => simpa [pySplitAux] using ih k'
    | zero =>
      rw [pySplitAux]
      by_cases hp : sep.isPrefixOf (a :: rest)
      · simp [hp]
      · rw [if_neg hp]
        cases hm : pySplitAux sep 0 rest with
        | nil => simp
        | cons ch chs => simp

theorem pySplit_head_pre (sep : List Char) :
    ∀ (s ch : List Char) (chs : List (List Char)),
      pySplitAux sep 0 s = ch :: chs → ch <+: s := by
  intro s
  induction s with
  | nil =>
    intro ch chs h
    rw [pySplitAux] at h
    injection h with h1 h2
    subst h1
    exact List.nil_prefix
  | cons a rest ih =>
    intro ch chs h
    by_cases hp : sep.isPrefixOf (a :: rest)
    · rw [pySplitAux, if_pos hp] at h
      injection h with h1 h2
      subst h1
      exact List.nil_prefix
    · rw [pySplitAux, if_neg hp] at h
      cases hm : pySplitAux sep 0 rest with
      | nil =>
        rw [hm] at h
        injection h with h1 h2
        subst h1
        exact ( List.cons_prefix_cons).mpr ⟨rfl, List.nil_prefix⟩
      | cons ch' chs' =>
        rw [hm] at h
        injection h with h1 h2
        subst h1
        exact ( List.cons_prefix_cons).mpr ⟨rfl, ih ch' chs' hm⟩

theorem pySplit_chunk_no_sep (sep : List Char) (hs : sep ≠ []) :
    ∀ (s : List Char) (k : Nat) (c : List Char),
      c ∈ pySplitAux sep k s → pyFind sep c = none := by
  have hnil : pyFind sep [] = none := by
    rw [pyFind]
    simp [List.isEmpty_iff, hs]
  intro s
  induction s with
  | nil =>
    intro k c hc
    rw [pySplitAux] at hc
    simp at hc
    subst hc
    exact hnil
  | cons a rest ih =>
    intro k c hc
    cases k with
    | succ k' => exact ih k' c (by simpa [pySplitAux] using hc)
    | zero =>
      by_cases hp : sep.isPrefixOf (a :: rest)
      · rw [pySplitAux, if_pos hp] at hc
        rcases List.mem_cons.mp hc with rfl | hc2
        · exact hnil
        · exact ih _ c hc2
      · rw [pySplitAux, if_neg hp] at hc
        cases hm : pySplitAux sep 0 rest with
        | nil => exact absurd hm (pySplitAux_ne_nil sep 0 rest)
        | cons ch chs =>
          rw [hm] at hc
          rcases List.mem_cons.mp hc with rfl | hc2
          · apply (pyFind_eq_none_iff _ _).mpr
            intro p hpre
            cases p with
            | zero =>
              rw [List.drop_zero] at hpre
              apply hp
              apply List.isPrefixOf_iff_prefix.mpr
              have hch : ch <+: rest := pySplit_head_pre sep rest ch chs hm
              exact hpre.trans (( List.cons_prefix_cons).mpr ⟨rfl, hch⟩)
            | succ p =>
              have hchn : pyFind sep ch = none :=
                ih 0 ch (by rw [hm]; exact List.mem_cons_self _ _)
              exact (pyFind_eq_none_iff _ _).mp hchn p (by simpa using hpre)
          · exact ih 0 c (by rw [hm]; exact List.mem_cons_of_mem _ hc2)

set_option maxRecDepth 8000 in
/-- Claim C10 counterexample: for the content `" ## a"` the parser keeps
the chunk `" ## a"` (its stripped form starts with `"## "`) but rebuilding
and reparsing loses it, because the rebuilt document contains no
occurrence of `"\n## "` and is therefore treated as all header. -/
theorem parse_reparse_counterexample :
    parse_changelog (build_changelog
        (parse_changelog ((" ## a").toList)).1
        (parse_changelog ((" ## a").toList)).2) ≠
      parse_changelog ((" ## a").toList) := by decide

/-- Claim C10 (amended): if `parse_changelog C = (H, E)` and every entry
of `E` starts with `"## "` (no leading whitespace) and does not end with
`"\n---\n"`, then parsing the rebuilt document returns `(H, E)` again. -/
theorem parse_changelog_reparse_stable (C H : List Char)
    (E : List (List Char))
    (hparse : parse_changelog C = (H, E))
    (hE : ∀ e ∈ E, entryLead <+: e ∧ ¬ ['\n', '-', '-', '-', '\n'] <:+ e) :
    parse_changelog (build_changelog H E) = (H, E) := by
  by_cases htag : tagsMarker.isPrefixOf C
  · cases hf : pyFind entryStartMarker C with
    | none =>
      rw [parse_changelog, if_pos htag, hf, Prod.mk.injEq] at hparse
      obtain ⟨rfl, rfl⟩ := hparse
      show parse_changelog C = (C, [])
      rw [parse_changelog, if_pos htag, hf]
    | some i =>
      rw [parse_changelog, if_pos htag, hf, Prod.mk.injEq] at hparse
      obtain ⟨rfl, rfl⟩ := hparse
      obtain ⟨hocc, hmin⟩ := (pyFind_eq_some_iff _ _ _).mp hf
      have hCi : C[i]? = some '\n' := by
        obtain ⟨t, ht⟩ := hocc
        have h0 : (C.drop i)[0]? = some '\n' := by
          rw [← ht]
          rfl
        rw [List.getElem?_drop] at h0
        simpa using h0
      obtain ⟨r, hr⟩ := List.isPrefixOf_iff_prefix.mp htag
      have htl : tagsMarker.length = 11 := rfl
      have h11 : 11 ≤ i := by
        by_contra hlt
        push_neg at hlt
        have hti : tagsMarker[i]? = some '\n' := by
          have h2 : (tagsMarker ++ r)[i]? = some '\n' := by
            rw [hr]
            exact hCi
          rwa [List.getElem?_append_left (by omega)] at h2
        have hno : ∀ j, j < 11 → tagsMarker[j]? ≠ some '\n' := by decide
        exact hno i (by omega) hti
      refine parse_build_aux _ _ ?_ ?_ ?_ ?_
      · apply List.prefix_iff_eq_take.mpr
        rw [List.take_take, min_eq_left (by omega), ← hr, List.take_left]
      · apply (pyFind_eq_none_iff _ _).mpr
        intro p hpre
        have h4' : entryStartMarker.length = 4 := rfl
        have hplen := hpre.length_le
        rw [List.length_drop, List.length_take] at hplen
        have hin : entryStartMarker <+: C.drop p := by
          have hdt : (C.take (i + 1)).drop p = (C.drop p).take (i + 1 - p) := by
            rw [List.drop_take]
          rw [hdt] at hpre
          exact hpre.trans ( List.take_prefix _ _)
        exact hmin p (by omega) hin
      · rw [List.take_succ, hCi]
        exact ⟨C.take i, by simp⟩
      · intro e he
        have hemem : e ∈ pySplit ENTRY_SEPARATOR (C.drop (i + 1)) :=
          List.mem_of_mem_filter he
        have hkeep : keepEntry e = true := List.of_mem_filter he
        exact ⟨(hE e he).1, hkeep,
          pySplit_chunk_no_sep ENTRY_SEPARATOR (by decide) _ 0 e hemem,
          (hE e he).2⟩
  · rw [parse_changelog, if_neg htag, Prod.mk.injEq] at hparse
    obtain ⟨rfl, rfl⟩ := hparse
    refine parse_build_aux _ _ ?_ ?_ ?_ ?_
    · decide
    · decide
    · decide
    · intro e he
      have hemem : e ∈ pySplit ENTRY_SEPARATOR C := List.mem_of_mem_filter he
      have hkeep : keepEntry e = true := List.of_mem_filter he
      exact ⟨(hE e he).1, hkeep,
        pySplit_chunk_no_sep ENTRY_SEPARATOR (by decide) _ 0 e hemem,
        (hE e he).2⟩

/-- Witness for claim C10 at a concrete parsed changelog with one
entry. -/
theorem parse_changelog_reparse_stable_witness :
    parse_changelog (build_changelog CHANGELOG_HEADER [("## b").toList]) =
      (CHANGELOG_HEADER, [("## b").toList]) :=
  parse_changelog_reparse_stable
    (CHANGELOG_HEADER ++ ("## b").toList ++ ENTRY_SEPARATOR)
    CHANGELOG_HEADER [("## b").toList] (by decide) (by decide)

end AiTuiDocMaker
